import Mathlib

/-!
Verification of the media-decryption core of `evo-to-base64`
(`utils/crypto-utils.js`): a shallow embedding of
`decryptWhatsAppMedia`, `validateEncryptedData`, `validateMediaKey`,
`verifyFileSha256`, `verifyEncryptedFileSha256` and `detectMimeType`,
together with theorems about the behaviour these functions exhibit.

Byte buffers are modelled as `List Nat` (each element a byte value).
The external crypto primitives supplied by Node's `crypto` module are
modelled as parameters: SHA-256 is an abstract function producing a
32-byte digest (packaged in `Sha256Spec`), while HMAC-SHA256, HKDF,
AES-CBC chaining and PKCS#7 padding are embedded structurally, since
their behaviour is what the source relies on.  The AES-256 block
permutation itself is likewise a parameter of the embedding.
-/

set_option maxHeartbeats 1000000

/-- A byte buffer: a list of byte values. -/
abbrev Bytes := List Nat

/-- All entries of a buffer are genuine byte values. -/
def ValidBytes (bs : Bytes) : Prop := ∀ b ∈ bs, b < 256

instance (bs : Bytes) : Decidable (ValidBytes bs) := by
  unfold ValidBytes; infer_instance

/-! ## Base64 decoding, as performed by Node's `Buffer.from(s, 'base64')`

Node's decoder is lenient: characters outside the base64 alphabet
(including whitespace and the `=` padding) are skipped, and the
remaining sextets are packed into bytes, dropping leftover bits. -/

/-- The 6-bit value of a base64 alphabet character; `none` for every
other character.  Node also accepts the URL-safe alphabet. -/
def base64CharValue (c : Char) : Option Nat :=
  if ('A' ≤ c ∧ c ≤ 'Z') then some (c.toNat - 65)
  else if ('a' ≤ c ∧ c ≤ 'z') then some (c.toNat - 97 + 26)
  else if ('0' ≤ c ∧ c ≤ '9') then some (c.toNat - 48 + 52)
  else if (c = '+' ∨ c = '-') then some 62
  else if (c = '/' ∨ c = '_') then some 63
  else none

/-- Pack a stream of 6-bit values into bytes, discarding leftover bits
that do not fill a whole byte (Node semantics). -/
def sextetsToBytes : List Nat → Bytes
  | a :: b :: c :: d :: rest =>
      (a * 4 + b / 16) :: ((b % 16) * 16 + c / 4) :: ((c % 4) * 64 + d) ::
        sextetsToBytes rest
  | [a, b, c] => [a * 4 + b / 16, (b % 16) * 16 + c / 4]
  | [a, b] => [a * 4 + b / 16]
  | [_] => []
  | [] => []

/-- Node's lenient base64 decode of a string into bytes. -/
def nodeBase64Decode (s : String) : Bytes :=
  sextetsToBytes (s.data.filterMap base64CharValue)

/-! ## Base64 encoding, as performed by `digest('base64')` -/

/-- The standard base64 alphabet. -/
def base64Chars : List Char :=
  ("ABCDEFGHIJKLMNOPQRSTUVWXYZabcdefghijklmnopqrstuvwxyz0123456789+/").data

/-- Character for a 6-bit value. -/
def sextetChar (n : Nat) : Char := base64Chars.getD n 'A'

/-- Encode bytes three at a time into four base64 characters, padding
the final group with `=`. -/
def base64EncodeChunks : Bytes → List Char
  | [] => []
  | [a] => [sextetChar (a / 4), sextetChar ((a % 4) * 16), '=', '=']
  | [a, b] => [sextetChar (a / 4), sextetChar ((a % 4) * 16 + b / 16),
      sextetChar ((b % 16) * 4), '=']
  | a :: b :: c :: rest =>
      sextetChar (a / 4) :: sextetChar ((a % 4) * 16 + b / 16) ::
        sextetChar ((b % 16) * 4 + c / 64) :: sextetChar (c % 64) ::
          base64EncodeChunks rest

/-- Standard (padded) base64 encoding of a byte buffer. -/
def base64Encode (bs : Bytes) : String := ⟨base64EncodeChunks bs⟩

/-! ## The SHA-256 primitive, abstractly -/

/-- An abstract SHA-256: a deterministic function from messages to
32-byte digests.  The two proof fields record the facts about the real
primitive that the embedded code relies on: the digest has exactly 32
entries and each entry is a byte. -/
structure Sha256Spec where
  sha256 : Bytes → Bytes
  length_eq : ∀ m, (sha256 m).length = 32
  mem_lt : ∀ m, ∀ b ∈ sha256 m, b < 256

/-- HMAC-SHA256 (FIPS 198, block size 64): the construction Node's
`crypto.createHmac('sha256', key)` implements. -/
def hmacSha256 (C : Sha256Spec) (key msg : Bytes) : Bytes :=
  let key0 := if 64 < key.length then C.sha256 key else key
  let keyPad := key0 ++ List.replicate (64 - key0.length) 0
  let ipadKey := keyPad.map (fun b => b ^^^ 0x36)
  let opadKey := keyPad.map (fun b => b ^^^ 0x5c)
  C.sha256 (opadKey ++ C.sha256 (ipadKey ++ msg))

/-- The expansion loop of HKDF (RFC 5869): block `i` is
`HMAC(prk, previousBlock ++ info ++ [i])`. -/
def hkdfExpandLoop (C : Sha256Spec) (prk info : Bytes) :
    Nat → Bytes → Nat → Bytes
  | 0, _, _ => []
  | n + 1, prev, i =>
      let t := hmacSha256 C prk (prev ++ info ++ [i])
      t ++ hkdfExpandLoop C prk info n t (i + 1)

/-- HKDF-SHA256 as exposed by Node's
`crypto.hkdfSync('sha256', ikm, salt, info, length)`. -/
def hkdfSync (C : Sha256Spec) (ikm salt info : Bytes) (outLen : Nat) : Bytes :=
  let prk := hmacSha256 C salt ikm
  (hkdfExpandLoop C prk info ((outLen + 31) / 32) [] 1).take outLen

/-! ## AES-256-CBC with PKCS#7 padding

`crypto.createDecipheriv('aes-256-cbc', key, iv)` with auto padding:
CBC chaining over an abstract 16-byte block permutation, PKCS#7
padding checked and stripped at the end.  A total input length that is
not a positive multiple of 16 raises the `wrong final block length`
error; invalid padding raises `bad decrypt`. -/

/-- The error raised at each `throw` site reachable inside
`decryptWhatsAppMedia`'s `try` block. -/
inductive ThrownError where
  /-- `crypto.timingSafeEqual` raises a `RangeError` when its two
  buffers have different lengths. -/
  | macCompareLengthMismatch : ThrownError
  /-- the source's own `throw new Error('Falha na verificação de
  integridade (MAC inválido)')`. -/
  | macMismatch : ThrownError
  /-- the cipher's error when the ciphertext length is not a positive
  multiple of the block size. -/
  | wrongFinalBlockLength : ThrownError
  /-- the cipher's `bad decrypt` error for invalid PKCS#7 padding. -/
  | badDecrypt : ThrownError
deriving DecidableEq

/-- The failure the caller of `decryptWhatsAppMedia` observes: the
`catch` block rethrows, prefixing the message with
`Erro na descriptografia:` but keeping the inner message, so the
original failure kind stays recoverable. -/
inductive DecryptFailure where
  | wrapped : ThrownError → DecryptFailure
deriving DecidableEq

/-- CBC encryption of `n` 16-byte blocks with block permutation `E`. -/
def cbcEncryptAux (E : Bytes → Bytes → Bytes) (key : Bytes) :
    Nat → Bytes → Bytes → Bytes
  | 0, _, _ => []
  | n + 1, prev, pt =>
      let c := E key (List.zipWith Nat.xor (pt.take 16) prev)
      c ++ cbcEncryptAux E key n c (pt.drop 16)

/-- CBC encryption of a whole (block-aligned) buffer. -/
def cbcEncryptBlocks (E : Bytes → Bytes → Bytes) (key iv pt : Bytes) : Bytes :=
  cbcEncryptAux E key (pt.length / 16) iv pt

/-- CBC decryption of `n` 16-byte blocks with block permutation `D`. -/
def cbcDecryptAux (D : Bytes → Bytes → Bytes) (key : Bytes) :
    Nat → Bytes → Bytes → Bytes
  | 0, _, _ => []
  | n + 1, prev, ct =>
      let c := ct.take 16
      List.zipWith Nat.xor (D key c) prev ++ cbcDecryptAux D key n c (ct.drop 16)

/-- CBC decryption of a whole (block-aligned) buffer. -/
def cbcDecryptBlocks (D : Bytes → Bytes → Bytes) (key iv ct : Bytes) : Bytes :=
  cbcDecryptAux D key (ct.length / 16) iv ct

/-- PKCS#7 padding: append `p` copies of `p`, `p = 16 - len % 16`. -/
def pkcs7Pad (bs : Bytes) : Bytes :=
  bs ++ List.replicate (16 - bs.length % 16) (16 - bs.length % 16)

/-- PKCS#7 unpadding as validated by OpenSSL at `final()`: the last
byte is the pad length `p`, which must satisfy `1 ≤ p ≤ 16`, and the
last `p` bytes must all equal `p`; otherwise `bad decrypt`. -/
def pkcs7Unpad (bs : Bytes) : Except ThrownError Bytes :=
  let p := bs.getLast?.getD 0
  if 1 ≤ p ∧ p ≤ 16 ∧ (bs.drop (bs.length - p)).all (fun b => b == p) then
    Except.ok (bs.take (bs.length - p))
  else
    Except.error ThrownError.badDecrypt

/-- The `decipher.update`/`decipher.final` pipeline of
`aes-256-cbc` with auto padding. -/
def aesCbcDecryptPkcs7 (D : Bytes → Bytes → Bytes) (key iv ct : Bytes) :
    Except ThrownError Bytes :=
  if ct.length = 0 ∨ ct.length % 16 ≠ 0 then
    Except.error ThrownError.wrongFinalBlockLength
  else
    pkcs7Unpad (cbcDecryptBlocks D key iv ct)

/-! ## decryptWhatsAppMedia (crypto-utils.js lines 9-57) -/

/-- The bytes of the fixed info string `'WhatsApp Media Keys'`. -/
def whatsAppMediaKeysInfo : Bytes :=
  ("WhatsApp Media Keys").data.map Char.toNat

/-- Line 21: `crypto.hkdfSync('sha256', mediaKeyBuffer,
Buffer.alloc(0), 'WhatsApp Media Keys', 112)`. -/
def deriveExpandedKey (C : Sha256Spec) (keyBytes : Bytes) : Bytes :=
  hkdfSync C keyBytes [] whatsAppMediaKeysInfo 112

/-- Line 29: `encryptedData.slice(0, -10)`. -/
def encryptedMediaOf (encryptedData : Bytes) : Bytes :=
  encryptedData.take (encryptedData.length - 10)

/-- Line 30: `encryptedData.slice(-10)`. -/
def receivedMacOf (encryptedData : Bytes) : Bytes :=
  encryptedData.drop (encryptedData.length - 10)

/-- Lines 33-37: HMAC-SHA256 over `iv` then `encryptedMedia`,
truncated to its first 10 bytes. -/
def computedMacOf (C : Sha256Spec) (expandedKey encryptedData : Bytes) : Bytes :=
  (hmacSha256 C ((expandedKey.drop 48).take 32)
    (expandedKey.take 16 ++ encryptedMediaOf encryptedData)).take 10

/-- Lines 24-53 of `decryptWhatsAppMedia`: everything after the key
expansion, with the `catch` block's rethrow applied to each `throw`
site.  `expandedKey.take 16` is the iv (`slice(0, 16)`),
`(expandedKey.drop 16).take 32` the cipher key (`slice(16, 48)`) and
`(expandedKey.drop 48).take 32` the MAC key (`slice(48, 80)`). -/
def decryptWithExpandedKey (C : Sha256Spec) (D : Bytes → Bytes → Bytes)
    (expandedKey encryptedData : Bytes) : Except DecryptFailure Bytes :=
  if (receivedMacOf encryptedData).length ≠
      (computedMacOf C expandedKey encryptedData).length then
    Except.error (DecryptFailure.wrapped ThrownError.macCompareLengthMismatch)
  else if receivedMacOf encryptedData ≠ computedMacOf C expandedKey encryptedData then
    Except.error (DecryptFailure.wrapped ThrownError.macMismatch)
  else
    match aesCbcDecryptPkcs7 D ((expandedKey.drop 16).take 32)
        (expandedKey.take 16) (encryptedMediaOf encryptedData) with
    | Except.ok plain => Except.ok plain
    | Except.error e => Except.error (DecryptFailure.wrapped e)

/-- `decryptWhatsAppMedia(mediaKey, encryptedData)`: decode the base64
media key, expand it with HKDF-SHA256, then verify the truncated MAC
and decrypt.  No key-length or payload-format validation happens here;
every failure is the wrapped form of one of the `throw` sites. -/
def decryptWhatsAppMedia (C : Sha256Spec) (D : Bytes → Bytes → Bytes)
    (mediaKey : String) (encryptedData : Bytes) : Except DecryptFailure Bytes :=
  decryptWithExpandedKey C D
    (deriveExpandedKey C (nodeBase64Decode mediaKey)) encryptedData

/-! ## The remaining operations of crypto-utils.js -/

/-- `validateEncryptedData` (lines 64-82): at least 10 bytes, and the
length minus the 10-byte MAC a multiple of 16. -/
def validateEncryptedData (encryptedData : Bytes) : Bool :=
  if encryptedData.length < 10 then false
  else if (encryptedData.length - 10) % 16 ≠ 0 then false
  else true

/-- `validateMediaKey` (lines 89-97): the base64-decoded key must have
exactly 32 bytes. -/
def validateMediaKey (mediaKey : String) : Bool :=
  (nodeBase64Decode mediaKey).length == 32

/-- `verifyFileSha256` (lines 105-115): compare the base64-encoded
SHA-256 of the data with the expected string. -/
def verifyFileSha256 (C : Sha256Spec) (decryptedData : Bytes)
    (expectedSha256 : String) : Bool :=
  base64Encode (C.sha256 decryptedData) == expectedSha256

/-- `verifyEncryptedFileSha256` (lines 123-133): identical computation
on the encrypted bytes. -/
def verifyEncryptedFileSha256 (C : Sha256Spec) (encryptedData : Bytes)
    (expectedEncSha256 : String) : Bool :=
  base64Encode (C.sha256 encryptedData) == expectedEncSha256

/-- Signature `FF D8 FF E0` (JPEG/JFIF). -/
def jpegSigE0 : Bytes := [0xFF, 0xD8, 0xFF, 0xE0]

/-- Signature `FF D8 FF E1` (JPEG/Exif). -/
def jpegSigE1 : Bytes := [0xFF, 0xD8, 0xFF, 0xE1]

/-- Signature `89 50 4E 47 0D 0A 1A 0A` (PNG). -/
def pngSig : Bytes := [0x89, 0x50, 0x4E, 0x47, 0x0D, 0x0A, 0x1A, 0x0A]

/-- Signature `OggS`. -/
def oggSig : Bytes := [0x4F, 0x67, 0x67, 0x53]

/-- Signature `fLaC`. -/
def flacSig : Bytes := [0x66, 0x4C, 0x61, 0x43]

/-- Signature `00 00 00 18` (MP4 box). -/
def mp4Sig18 : Bytes := [0x00, 0x00, 0x00, 0x18]

/-- Signature `00 00 00 20` (MP4 box). -/
def mp4Sig20 : Bytes := [0x00, 0x00, 0x00, 0x20]

/-- Signature `ID3`. -/
def id3Sig : Bytes := [0x49, 0x44, 0x33]

/-- Signature `FF FB` (MPEG audio frame). -/
def mpegSig : Bytes := [0xFF, 0xFB]

/-- `detectMimeType` (lines 140-172): check the leading bytes against
the fixed signatures, in source order, returning the generic label
when nothing matches. -/
def detectMimeType (data : Bytes) : String :=
  let magicBytes := data.take 12
  if magicBytes.take 4 = jpegSigE0 ∨ magicBytes.take 4 = jpegSigE1 then
    ("image/jpeg")
  else if magicBytes.take 8 = pngSig then
    ("image/png")
  else if magicBytes.take 4 = oggSig then
    ("audio/ogg")
  else if magicBytes.take 4 = flacSig then
    ("audio/flac")
  else if magicBytes.take 4 = mp4Sig18 ∨ magicBytes.take 4 = mp4Sig20 then
    ("video/mp4")
  else if magicBytes.take 3 = id3Sig ∨ magicBytes.take 2 = mpegSig then
    ("audio/mpeg")
  else
    ("application/octet-stream")

/-! ## Spec-side definitions used for refinement claims -/

/-- Modelled from the spec: a payload prefix matches a signature when
its leading bytes equal the pattern (a shorter payload cannot match). -/
def matchesSig (d : Bytes) (pat : Bytes) : Bool :=
  d.take pat.length == pat

/-- Modelled from the spec (§4.5): the ordered media-type signature
table, each entry a list of alternative patterns with its MIME label. -/
def mediaTypeSignatures : List (List Bytes × String) :=
  [([jpegSigE0, jpegSigE1], ("image/jpeg")),
   ([pngSig], ("image/png")),
   ([oggSig], ("audio/ogg")),
   ([flacSig], ("audio/flac")),
   ([mp4Sig18, mp4Sig20], ("video/mp4")),
   ([id3Sig, mpegSig], ("audio/mpeg"))]

/-- Modelled from the spec: walk the signature table in priority
order, stopping at the first matching entry, with the generic label as
fallback. -/
def lookupSignature (d : Bytes) : List (List Bytes × String) → String
  | [] => ("application/octet-stream")
  | entry :: rest =>
      if entry.1.any (matchesSig d) then entry.2 else lookupSignature d rest

/-- Modelled from the spec: `sniffMediaType` as the ordered-table
lookup of §4.5. -/
def sniffMediaType (d : Bytes) : String :=
  lookupSignature d mediaTypeSignatures

/-- Modelled from the spec: the test-only encryptor of §8, built from
the same HKDF key derivation, AES-CBC over a block permutation `E`
with PKCS#7 padding, and the 10-byte-truncated HMAC-SHA256 of
`iv ++ ciphertext` appended as trailer. -/
def encryptWhatsAppMedia (C : Sha256Spec) (E : Bytes → Bytes → Bytes)
    (keyBytes plaintext : Bytes) : Bytes :=
  let expandedKey := deriveExpandedKey C keyBytes
  let iv := expandedKey.take 16
  let cipherKey := (expandedKey.drop 16).take 32
  let macKey := (expandedKey.drop 48).take 32
  let ct := cbcEncryptBlocks E cipherKey iv (pkcs7Pad plaintext)
  let mac := (hmacSha256 C macKey (iv ++ ct)).take 10
  ct ++ mac

/-! ## Concrete instances used to evaluate the embedding -/

/-- A degenerate digest function: constant 32-byte output.  Any
`Sha256Spec` instance may stand in for the primitive when a theorem is
evaluated at concrete inputs. -/
def constSha256 : Sha256Spec where
  sha256 := fun _ => List.replicate 32 0
  length_eq := fun _ => by simp
  mem_lt := fun _ b hb => by
    have := List.eq_of_mem_replicate hb
    omega

/-- A digest function separating inputs of different lengths: 31 zero
bytes followed by the input length mod 256. -/
def lenTagSha256 : Sha256Spec where
  sha256 := fun m => List.replicate 31 0 ++ [m.length % 256]
  length_eq := fun _ => by simp
  mem_lt := fun m b hb => by
    simp only [List.mem_append, List.mem_replicate, List.mem_singleton] at hb
    rcases hb with h | h
    · omega
    · have : m.length % 256 < 256 := Nat.mod_lt _ (by omega)
      omega

/-- The identity block cipher: its decryption direction is its own
inverse, which is all the round-trip law requires of AES. -/
def idBlockCipher : Bytes → Bytes → Bytes := fun _ b => b

/-! ## Supporting lemmas -/

theorem hmacSha256_length (C : Sha256Spec) (key msg : Bytes) :
    (hmacSha256 C key msg).length = 32 := C.length_eq _

theorem hkdfExpandLoop_length (C : Sha256Spec) (prk info : Bytes) :
    ∀ (n : Nat) (prev : Bytes) (i : Nat),
      (hkdfExpandLoop C prk info n prev i).length = 32 * n := by
  intro n
  induction n with
  | zero => intro prev i; simp [hkdfExpandLoop]
  | succ k ih =>
      intro prev i
      simp only [hkdfExpandLoop, List.length_append, hmacSha256_length, ih]
      ring

theorem deriveExpandedKey_length (C : Sha256Spec) (keyBytes : Bytes) :
    (deriveExpandedKey C keyBytes).length = 112 := by
  simp [deriveExpandedKey, hkdfSync, hkdfExpandLoop_length]

theorem zipWith_xor_cancel :
    ∀ (a b : Bytes), a.length = b.length →
      List.zipWith Nat.xor (List.zipWith Nat.xor a b) b = a := by
  intro a
  induction a with
  | nil => intro b _; simp
  | cons x xs ih =>
      intro b hb
      cases b with
      | nil => simp at hb
      | cons y ys =>
          simp only [List.zipWith_cons_cons, List.cons.injEq]
          refine ⟨Nat.xor_cancel_right y x, ih ys (by simpa using hb)⟩

theorem cbcEncryptAux_length (E : Bytes → Bytes → Bytes) (key : Bytes)
    (hLen : ∀ k b, b.length = 16 → (E k b).length = 16) :
    ∀ (n : Nat) (prev pt : Bytes), pt.length = 16 * n → prev.length = 16 →
      (cbcEncryptAux E key n prev pt).length = 16 * n := by
  intro n
  induction n with
  | zero => intro prev pt _ _; simp [cbcEncryptAux]
  | succ k ih =>
      intro prev pt hpt hprev
      have hblock : (List.zipWith Nat.xor (pt.take 16) prev).length = 16 := by
        simp only [List.length_zipWith, List.length_take, hprev]
        omega
      have hc : (E key (List.zipWith Nat.xor (pt.take 16) prev)).length = 16 :=
        hLen _ _ hblock
      simp only [cbcEncryptAux, List.length_append, hc]
      rw [ih _ _ (by simp [List.length_drop, hpt]; omega) hc]
      ring

theorem cbc_aux_roundtrip (E D : Bytes → Bytes → Bytes) (key : Bytes)
    (hInv : ∀ k b, b.length = 16 → D k (E k b) = b)
    (hLen : ∀ k b, b.length = 16 → (E k b).length = 16) :
    ∀ (n : Nat) (prev pt : Bytes), pt.length = 16 * n → prev.length = 16 →
      cbcDecryptAux D key n prev (cbcEncryptAux E key n prev pt) = pt := by
  intro n
  induction n with
  | zero =>
      intro prev pt hpt _
      have : pt = [] := List.eq_nil_of_length_eq_zero (by omega)
      simp [cbcEncryptAux, cbcDecryptAux, this]
  | succ k ih =>
      intro prev pt hpt hprev
      have hblock : (List.zipWith Nat.xor (pt.take 16) prev).length = 16 := by
        simp only [List.length_zipWith, List.length_take, hprev]
        omega
      have hc : (E key (List.zipWith Nat.xor (pt.take 16) prev)).length = 16 :=
        hLen _ _ hblock
      simp only [cbcEncryptAux, cbcDecryptAux]
      rw [List.take_left' hc, List.drop_left' hc]
      rw [hInv _ _ hblock]
      rw [zipWith_xor_cancel _ _ (by simp [List.length_take, hprev]; omega)]
      rw [ih _ _ (by simp [List.length_drop, hpt]; omega) hc]
      exact List.take_append_drop 16 pt

theorem cbc_blocks_roundtrip (E D : Bytes → Bytes → Bytes) (key iv pt : Bytes)
    (hInv : ∀ k b, b.length = 16 → D k (E k b) = b)
    (hLen : ∀ k b, b.length = 16 → (E k b).length = 16)
    (hpt : pt.length % 16 = 0) (hiv : iv.length = 16) :
    cbcDecryptBlocks D key iv (cbcEncryptBlocks E key iv pt) = pt := by
  have hn : pt.length = 16 * (pt.length / 16) := by omega
  unfold cbcEncryptBlocks cbcDecryptBlocks
  rw [cbcEncryptAux_length E key hLen _ _ _ hn hiv]
  have h2 : 16 * (pt.length / 16) / 16 = pt.length / 16 := by omega
  rw [h2]
  exact cbc_aux_roundtrip E D key hInv hLen _ _ _ hn hiv

theorem pkcs7Pad_length (bs : Bytes) :
    (pkcs7Pad bs).length = bs.length + (16 - bs.length % 16) := by
  simp [pkcs7Pad]

theorem pkcs7Pad_length_mod (bs : Bytes) : (pkcs7Pad bs).length % 16 = 0 := by
  rw [pkcs7Pad_length]
  have : bs.length % 16 < 16 := Nat.mod_lt _ (by omega)
  omega

theorem pkcs7Pad_length_pos (bs : Bytes) : 0 < (pkcs7Pad bs).length := by
  rw [pkcs7Pad_length]
  have : bs.length % 16 < 16 := Nat.mod_lt _ (by omega)
  omega

theorem pkcs7Unpad_pad (bs : Bytes) : pkcs7Unpad (pkcs7Pad bs) = Except.ok bs := by
  set p := 16 - bs.length % 16 with hp
  have hp1 : 1 ≤ p := by
    have : bs.length % 16 < 16 := Nat.mod_lt _ (by omega)
    omega
  have hp16 : p ≤ 16 := by omega
  have hlast : (pkcs7Pad bs).getLast? = some p := by
    unfold pkcs7Pad
    rw [List.getLast?_append, ← hp, List.getLast?_replicate,
      if_neg (by omega : ¬ p = 0)]
    rfl
  have hlen : (pkcs7Pad bs).length = bs.length + p := by
    rw [pkcs7Pad_length, ← hp]
  unfold pkcs7Unpad
  rw [hlast]
  simp only [Option.getD_some, hlen]
  have hsub : bs.length + p - p = bs.length := by omega
  rw [hsub]
  have hdrop : (pkcs7Pad bs).drop bs.length = List.replicate p p := by
    unfold pkcs7Pad
    rw [← hp, List.drop_left]
  have htake : (pkcs7Pad bs).take bs.length = bs := by
    unfold pkcs7Pad
    rw [← hp, List.take_left]
  rw [hdrop, htake]
  have hall : (List.replicate p p).all (fun b => b == p) = true := by
    simp [List.all_eq_true, List.mem_replicate]
  rw [if_pos]
  exact ⟨hp1, hp16, hall⟩

/-! ## C1: encrypt-then-decrypt round trip -/

/-- C1.  For every plaintext `P` and every base64 media key decoding
to 32 bytes, encrypting `P` with the test-only encryptor — the same
HKDF-SHA256 derivation (empty salt, info `'WhatsApp Media Keys'`,
112-byte output, iv = bytes 0-15, cipherKey = bytes 16-47, macKey =
bytes 48-79), CBC over any block permutation whose decryption
direction inverts its encryption direction, PKCS#7 padding, and the
10-byte-truncated HMAC-SHA256 of `iv ++ ciphertext` as trailer — and
then applying `decryptWhatsAppMedia` returns exactly `P`. -/
theorem decrypt_encrypt_roundTrip (C : Sha256Spec)
    (E D : Bytes → Bytes → Bytes) (mediaKey : String) (P : Bytes)
    (hKey : (nodeBase64Decode mediaKey).length = 32)
    (hInv : ∀ k b, b.length = 16 → D k (E k b) = b)
    (hLen : ∀ k b, b.length = 16 → (E k b).length = 16) :
    decryptWhatsAppMedia C D mediaKey
      (encryptWhatsAppMedia C E (nodeBase64Decode mediaKey) P) = Except.ok P := by
  have hexp : (deriveExpandedKey C (nodeBase64Decode mediaKey)).length = 112 :=
    deriveExpandedKey_length C _
  set exp := deriveExpandedKey C (nodeBase64Decode mediaKey) with hexpdef
  set iv := exp.take 16 with hivdef
  set ck := (exp.drop 16).take 32 with hckdef
  set mk := (exp.drop 48).take 32 with hmkdef
  have hiv : iv.length = 16 := by
    rw [hivdef]
    simp only [List.length_take, hexp]
    omega
  set padded := pkcs7Pad P with hpaddef
  have hpadmod : padded.length % 16 = 0 := pkcs7Pad_length_mod P
  have hpadpos : 0 < padded.length := pkcs7Pad_length_pos P
  set ct := cbcEncryptBlocks E ck iv padded with hctdef
  have hctlen : ct.length = padded.length := by
    rw [hctdef]
    unfold cbcEncryptBlocks
    rw [cbcEncryptAux_length E ck hLen _ _ _ (by omega) hiv]
    omega
  set mac := (hmacSha256 C mk (iv ++ ct)).take 10 with hmacdef
  have hmaclen : mac.length = 10 := by
    rw [hmacdef]
    simp [List.length_take, hmacSha256_length]
  have hpay : encryptWhatsAppMedia C E (nodeBase64Decode mediaKey) P = ct ++ mac := rfl
  rw [hpay]
  show decryptWithExpandedKey C D exp (ct ++ mac) = Except.ok P
  have hlen10 : (ct ++ mac).length - 10 = ct.length := by
    simp [List.length_append, hmaclen]
  have hem : encryptedMediaOf (ct ++ mac) = ct := by
    unfold encryptedMediaOf
    rw [hlen10, List.take_left]
  have hrm : receivedMacOf (ct ++ mac) = mac := by
    unfold receivedMacOf
    rw [hlen10, List.drop_left]
  have hcm : computedMacOf C exp (ct ++ mac) = mac := by
    unfold computedMacOf
    rw [hem, hmacdef]
  unfold decryptWithExpandedKey
  rw [hrm, hcm, hem]
  rw [if_neg (by simp)]
  rw [if_neg (by simp)]
  have hdec : aesCbcDecryptPkcs7 D ((exp.drop 16).take 32) (exp.take 16) ct =
      Except.ok P := by
    unfold aesCbcDecryptPkcs7
    rw [if_neg (by omega)]
    rw [hctdef, ← hckdef, ← hivdef,
      cbc_blocks_roundtrip E D ck iv padded hInv hLen hpadmod hiv, hpaddef]
    exact pkcs7Unpad_pad P
  rw [← hckdef, ← hivdef, hdec]

/-- A base64 string of 43 `A` characters, decoding to 32 zero bytes. -/
def keyA43 : String := "AAAAAAAAAAAAAAAAAAAAAAAAAAAAAAAAAAAAAAAAAAA"

/-- Witness for C1: the round trip evaluated at a concrete key,
plaintext and block cipher. -/
theorem decrypt_encrypt_roundTrip_witness :
    decryptWhatsAppMedia constSha256 idBlockCipher keyA43
      (encryptWhatsAppMedia constSha256 idBlockCipher
        (nodeBase64Decode keyA43) [1, 2, 3]) = Except.ok [1, 2, 3] :=
  decrypt_encrypt_roundTrip constSha256 idBlockCipher idBlockCipher keyA43
    [1, 2, 3] (by decide) (fun _ _ _ => rfl) (fun _ _ h => h)

/-! ## C2: a flipped MAC bit forces MacMismatch -/

/-- C2.  Take any payload `ct ++ mac` with a 10-byte trailer on which
`decryptWhatsAppMedia` succeeds (an otherwise-valid payload).  Flip
any single bit of any trailer byte.  Then decryption fails with the
MAC-mismatch error — never a successful decode — and the result is
the same for every block-cipher decryptor `D'`, i.e. the decryptor is
never consulted once the MAC comparison has failed. -/
theorem decrypt_macBitFlip_macMismatch (C : Sha256Spec)
    (D : Bytes → Bytes → Bytes) (mediaKey : String)
    (ct mac out : Bytes) (i j : Nat)
    (hmac10 : mac.length = 10) (hi : i < 10) (hj : j < 8)
    (hOk : decryptWhatsAppMedia C D mediaKey (ct ++ mac) = Except.ok out) :
    ∀ D' : Bytes → Bytes → Bytes,
      decryptWhatsAppMedia C D' mediaKey
          (ct ++ mac.set i (mac.getD i 0 ^^^ 2 ^ j)) =
        Except.error (DecryptFailure.wrapped ThrownError.macMismatch) := by
  intro D'
  unfold decryptWhatsAppMedia at hOk ⊢
  set exp := deriveExpandedKey C (nodeBase64Decode mediaKey) with hexpdef
  set mac' := mac.set i (mac.getD i 0 ^^^ 2 ^ j) with hmacflip
  have hlen10 : (ct ++ mac).length - 10 = ct.length := by
    simp [List.length_append, hmac10]
  have hem : encryptedMediaOf (ct ++ mac) = ct := by
    unfold encryptedMediaOf
    rw [hlen10, List.take_left]
  have hrm : receivedMacOf (ct ++ mac) = mac := by
    unfold receivedMacOf
    rw [hlen10, List.drop_left]
  have hmacEq : mac = computedMacOf C exp (ct ++ mac) := by
    by_contra hne
    unfold decryptWithExpandedKey at hOk
    rw [hrm] at hOk
    by_cases hl : mac.length ≠ (computedMacOf C exp (ct ++ mac)).length
    · rw [if_pos hl] at hOk
      exact absurd hOk (by simp)
    · rw [if_neg hl, if_pos hne] at hOk
      exact absurd hOk (by simp)
  have hmac'len : mac'.length = 10 := by
    rw [hmacflip]
    simp [hmac10]
  have hlen10' : (ct ++ mac').length - 10 = ct.length := by
    simp [List.length_append, hmac'len]
  have hem' : encryptedMediaOf (ct ++ mac') = ct := by
    unfold encryptedMediaOf
    rw [hlen10', List.take_left]
  have hrm' : receivedMacOf (ct ++ mac') = mac' := by
    unfold receivedMacOf
    rw [hlen10', List.drop_left]
  have hcm' : computedMacOf C exp (ct ++ mac') = computedMacOf C exp (ct ++ mac) := by
    unfold computedMacOf
    rw [hem', hem]
  have hcml : (computedMacOf C exp (ct ++ mac)).length = 10 := by
    unfold computedMacOf
    simp [List.length_take, hmacSha256_length]
  have hilt : i < mac.length := by omega
  have hne : mac' ≠ mac := by
    intro heq
    have h1 : (mac.set i (mac.getD i 0 ^^^ 2 ^ j))[i]? =
        some (mac.getD i 0 ^^^ 2 ^ j) := List.getElem?_set_self hilt
    rw [hmacflip] at heq
    rw [heq] at h1
    have h2 : mac.getD i 0 ^^^ 2 ^ j = mac.getD i 0 := by
      conv_rhs => rw [List.getD_eq_getElem?_getD, h1]
      rfl
    have h3 : (2 : Nat) ^ j = 0 := by
      have h4 := congrArg (fun x => (mac.getD i 0) ^^^ x) h2
      simpa [Nat.xor_cancel_left, Nat.xor_self] using h4
    have := Nat.two_pow_pos j
    omega
  unfold decryptWithExpandedKey
  rw [hrm', hcm']
  rw [if_neg (by rw [hmac'len, hcml]; simp)]
  rw [if_pos (by rw [← hmacEq]; exact hne)]

/-- Witness for C2: flipping the low bit of the first MAC byte of a
concrete payload that decrypts successfully. -/
theorem decrypt_macBitFlip_macMismatch_witness :
    decryptWhatsAppMedia constSha256 idBlockCipher ("")
        (List.replicate 16 16 ++
          (List.replicate 10 0).set 0 ((List.replicate 10 0).getD 0 0 ^^^ 2 ^ 0)) =
      Except.error (DecryptFailure.wrapped ThrownError.macMismatch) :=
  decrypt_macBitFlip_macMismatch constSha256 idBlockCipher ("")
    (List.replicate 16 16) (List.replicate 10 0) [] 0 0
    (by decide) (by decide) (by decide) (by rfl) idBlockCipher

/-! ## C3: decrypt performs no key-length check -/

/-- Counterexample for C3.  The empty media key decodes to 0 bytes,
not 32, yet `decryptWhatsAppMedia` does not fail at all on a suitable
payload: it derives keys from the 0-byte input and decrypts
successfully, so no `InvalidKeyLength` rejection happens inside
`decrypt`. -/
theorem decrypt_no_keyLength_check_counterexample :
    (nodeBase64Decode ("")).length ≠ 32 ∧
      decryptWhatsAppMedia constSha256 idBlockCipher ("")
          (List.replicate 16 16 ++ List.replicate 10 0) = Except.ok [] := by
  constructor
  · decide
  · rfl

/-- C3 as amended.  `decryptWhatsAppMedia` performs no key-length
validation: even when the base64-decoded media key does not have 32
bytes, the key is fed unchanged to the HKDF expansion and decryption
proceeds from the derived key material.  The 32-byte check exists only
in the separate `validateMediaKey`, which the service layer calls. -/
theorem decrypt_no_keyLength_check (C : Sha256Spec)
    (D : Bytes → Bytes → Bytes) (mediaKey : String) (encryptedData : Bytes)
    (hbad : (nodeBase64Decode mediaKey).length ≠ 32) :
    decryptWhatsAppMedia C D mediaKey encryptedData =
        decryptWithExpandedKey C D
          (deriveExpandedKey C (nodeBase64Decode mediaKey)) encryptedData ∧
      validateMediaKey mediaKey = false := by
  constructor
  · rfl
  · unfold validateMediaKey
    simpa using hbad

/-- Witness for C3's amended statement, at the empty key. -/
theorem decrypt_no_keyLength_check_witness :
    validateMediaKey ("") = false :=
  (decrypt_no_keyLength_check constSha256 idBlockCipher ("") []
    (by decide)).2

/-! ## C4: decrypt performs no payload-format pre-check -/

/-- Counterexample for C4.  Payload-format violations do not produce a
single dedicated `InvalidPayloadFormat` failure inside `decrypt`: a
9-byte payload fails at the MAC comparison with the buffer-length
error, a 27-byte payload with a correct trailer passes the MAC check
and fails only inside the cipher with the wrong-final-block-length
error, and a 27-byte payload with a wrong trailer fails as a plain MAC
mismatch — three different kinds, two of them after the MAC
comparison, so no format re-check runs at the start of `decrypt`. -/
theorem decrypt_no_format_check_counterexample :
    decryptWhatsAppMedia constSha256 idBlockCipher ("") (List.replicate 9 0) =
        Except.error
          (DecryptFailure.wrapped ThrownError.macCompareLengthMismatch) ∧
      decryptWhatsAppMedia constSha256 idBlockCipher ("")
          (List.replicate 17 1 ++ List.replicate 10 0) =
        Except.error (DecryptFailure.wrapped ThrownError.wrongFinalBlockLength) ∧
      decryptWhatsAppMedia constSha256 idBlockCipher ("")
          (List.replicate 17 1 ++ List.replicate 10 7) =
        Except.error (DecryptFailure.wrapped ThrownError.macMismatch) ∧
      ThrownError.macCompareLengthMismatch ≠ ThrownError.wrongFinalBlockLength := by
  refine ⟨by rfl, by rfl, by rfl, by decide⟩

/-- C4 as amended.  `decryptWhatsAppMedia` itself never re-validates
the payload format (that lives only in the separate
`validateEncryptedData`): on a malformed payload — shorter than 10
bytes, or with `length - 10` not a multiple of 16 — it still always
fails, but through the MAC buffer-length error, a MAC mismatch, or the
cipher's wrong-final-block-length error, depending on the input. -/
theorem decrypt_malformed_payload_fails (C : Sha256Spec)
    (D : Bytes → Bytes → Bytes) (mediaKey : String) (encryptedData : Bytes)
    (hbad : encryptedData.length < 10 ∨ (encryptedData.length - 10) % 16 ≠ 0) :
    validateEncryptedData encryptedData = false ∧
      ∃ k, decryptWhatsAppMedia C D mediaKey encryptedData =
          Except.error (DecryptFailure.wrapped k) ∧
        (k = ThrownError.macCompareLengthMismatch ∨
          k = ThrownError.macMismatch ∨
          k = ThrownError.wrongFinalBlockLength) := by
  constructor
  · unfold validateEncryptedData
    rcases hbad with h | h
    · rw [if_pos h]
    · by_cases h10 : encryptedData.length < 10
      · rw [if_pos h10]
      · rw [if_neg h10, if_pos h]
  · unfold decryptWhatsAppMedia decryptWithExpandedKey
    set exp := deriveExpandedKey C (nodeBase64Decode mediaKey) with hexpdef
    have hcml : (computedMacOf C exp encryptedData).length = 10 := by
      unfold computedMacOf
      simp [List.length_take, hmacSha256_length]
    have hrml : (receivedMacOf encryptedData).length =
        encryptedData.length - (encryptedData.length - 10) := by
      unfold receivedMacOf
      simp [List.length_drop]
    rcases hbad with h | h
    · refine ⟨ThrownError.macCompareLengthMismatch, ?_, Or.inl rfl⟩
      rw [if_pos (by omega)]
    · have hrm10 : (receivedMacOf encryptedData).length = 10 := by omega
      rw [if_neg (by omega)]
      by_cases hmac : receivedMacOf encryptedData ≠ computedMacOf C exp encryptedData
      · refine ⟨ThrownError.macMismatch, ?_, Or.inr (Or.inl rfl)⟩
        rw [if_pos hmac]
      · refine ⟨ThrownError.wrongFinalBlockLength, ?_, Or.inr (Or.inr rfl)⟩
        rw [if_neg hmac]
        have heml : (encryptedMediaOf encryptedData).length =
            encryptedData.length - 10 := by
          unfold encryptedMediaOf
          simp only [List.length_take]
          omega
        have : aesCbcDecryptPkcs7 D ((exp.drop 16).take 32) (exp.take 16)
            (encryptedMediaOf encryptedData) =
            Except.error ThrownError.wrongFinalBlockLength := by
          unfold aesCbcDecryptPkcs7
          rw [if_pos (by omega)]
        rw [this]

/-- Witness for C4's amended statement, at a 9-byte payload. -/
theorem decrypt_malformed_payload_fails_witness :
    validateEncryptedData (List.replicate 9 0) = false ∧
      ∃ k, decryptWhatsAppMedia constSha256 idBlockCipher ("")
          (List.replicate 9 0) = Except.error (DecryptFailure.wrapped k) ∧
        (k = ThrownError.macCompareLengthMismatch ∨
          k = ThrownError.macMismatch ∨
          k = ThrownError.wrongFinalBlockLength) :=
  decrypt_malformed_payload_fails constSha256 idBlockCipher ("")
    (List.replicate 9 0) (by decide)

/-! ## C5: failures carry a specific, distinguishable kind -/

/-- C5.  `decryptWhatsAppMedia` always yields either a definite
success value or the wrapped form of one specific thrown-error kind;
wrapping (the catch-and-rethrow of lines 54-56) collapses no kinds,
since it is injective; and when the MAC comparison itself fails
(buffers of equal length, unequal contents) the surfaced failure is
precisely the wrapped MAC-mismatch kind, distinguishable from every
other kind. -/
theorem decrypt_failure_kinds (C : Sha256Spec) (D : Bytes → Bytes → Bytes)
    (mediaKey : String) (encryptedData : Bytes) :
    ((∃ out, decryptWhatsAppMedia C D mediaKey encryptedData = Except.ok out) ∨
      (∃ k, decryptWhatsAppMedia C D mediaKey encryptedData =
        Except.error (DecryptFailure.wrapped k))) ∧
    (∀ k k', DecryptFailure.wrapped k = DecryptFailure.wrapped k' → k = k') ∧
    ((receivedMacOf encryptedData).length =
        (computedMacOf C (deriveExpandedKey C (nodeBase64Decode mediaKey))
          encryptedData).length →
      receivedMacOf encryptedData ≠
        computedMacOf C (deriveExpandedKey C (nodeBase64Decode mediaKey))
          encryptedData →
      decryptWhatsAppMedia C D mediaKey encryptedData =
        Except.error (DecryptFailure.wrapped ThrownError.macMismatch)) := by
  refine ⟨?_, ?_, ?_⟩
  · cases h : decryptWhatsAppMedia C D mediaKey encryptedData with
    | ok out => exact Or.inl ⟨out, rfl⟩
    | error e =>
        cases e with
        | wrapped k => exact Or.inr ⟨k, rfl⟩
  · intro k k' h
    injection h
  · intro hlen hne
    unfold decryptWhatsAppMedia decryptWithExpandedKey
    rw [if_neg (by simp [hlen])]
    rw [if_pos hne]

/-- Witness for C5: the MAC-mismatch clause evaluated at a concrete
payload whose trailer disagrees with the computed MAC. -/
theorem decrypt_failure_kinds_witness :
    decryptWhatsAppMedia constSha256 idBlockCipher ("")
        (List.replicate 16 16 ++ List.replicate 10 7) =
      Except.error (DecryptFailure.wrapped ThrownError.macMismatch) :=
  (decrypt_failure_kinds constSha256 idBlockCipher ("")
    (List.replicate 16 16 ++ List.replicate 10 7)).2.2 (by decide) (by decide)

/-! ## C6: validateEncryptedData characterises the payload format -/

/-- C6.  `validateEncryptedData` returns true exactly when the
payload has at least 10 bytes and the length minus the 10-byte MAC is
a multiple of 16; in particular it rejects lengths 9 and 27 and
accepts length 26. -/
theorem validateEncryptedData_iff :
    (∀ p : Bytes, validateEncryptedData p = true ↔
      (10 ≤ p.length ∧ (p.length - 10) % 16 = 0)) ∧
    (∀ p : Bytes, p.length = 9 → validateEncryptedData p = false) ∧
    (∀ p : Bytes, p.length = 27 → validateEncryptedData p = false) ∧
    (∀ p : Bytes, p.length = 26 → validateEncryptedData p = true) := by
  have hiff : ∀ p : Bytes, validateEncryptedData p = true ↔
      (10 ≤ p.length ∧ (p.length - 10) % 16 = 0) := by
    intro p
    unfold validateEncryptedData
    split_ifs with h1 h2
    · simp only [Bool.false_eq_true, false_iff]
      omega
    · simp only [Bool.false_eq_true, false_iff]
      omega
    · simp only [true_iff]
      omega
  refine ⟨hiff, ?_, ?_, ?_⟩
  · intro p hp
    have := hiff p
    cases h : validateEncryptedData p
    · rfl
    · rw [h] at this
      simp only [true_iff] at this
      omega
  · intro p hp
    have := hiff p
    cases h : validateEncryptedData p
    · rfl
    · rw [h] at this
      simp only [true_iff] at this
      omega
  · intro p hp
    rw [hiff p]
    omega

/-- Witness for C6: the example lengths from the spec evaluated at
concrete buffers. -/
theorem validateEncryptedData_iff_witness :
    validateEncryptedData (List.replicate 26 0) = true :=
  validateEncryptedData_iff.2.2.2 (List.replicate 26 0) (by decide)

/-! ## C7: validateMediaKey checks the decoded length -/

/-- C7.  `validateMediaKey` returns true exactly when the base64
decoding of the key string has exactly 32 bytes, and hence rejects
every string whose decoding has any other length. -/
theorem validateMediaKey_iff :
    (∀ s : String, validateMediaKey s = true ↔
      (nodeBase64Decode s).length = 32) ∧
    (∀ s : String, (nodeBase64Decode s).length ≠ 32 →
      validateMediaKey s = false) := by
  have hiff : ∀ s : String, validateMediaKey s = true ↔
      (nodeBase64Decode s).length = 32 := by
    intro s
    unfold validateMediaKey
    simp
  refine ⟨hiff, ?_⟩
  intro s hs
  cases h : validateMediaKey s
  · rfl
  · exact absurd ((hiff s).mp h) hs

/-- Witness for C7: the empty string decodes to 0 bytes and is
rejected. -/
theorem validateMediaKey_iff_witness : validateMediaKey ("") = false :=
  validateMediaKey_iff.2 ("") (by decide)

/-! ## C10: validateMediaKey is total and decodes leniently -/

/-- A 45-character string containing a space and `!`, neither in the
base64 alphabet, around 43 alphabet characters — not canonical
base64, yet decoding leniently to exactly 32 bytes. -/
def lenientKeyString : String :=
  "AAAAAAAAAAAAAAAAAAAAAAAAAAAAAAAAAAAAAAAAAAA !"

/-- C10.  `validateMediaKey` yields a boolean on every string
(totality), and Node's lenient base64 decoding ignores characters
outside the alphabet: `lenientKeyString` contains non-alphabet
characters but still validates, because the 43 alphabet characters
that remain decode to exactly 32 bytes. -/
theorem validateMediaKey_total_lenient :
    (∀ s : String, validateMediaKey s = true ∨ validateMediaKey s = false) ∧
    (lenientKeyString.data.any (fun c => (base64CharValue c).isNone) = true) ∧
    validateMediaKey lenientKeyString = true := by
  refine ⟨?_, by decide, by decide⟩
  intro s
  cases h : validateMediaKey s
  · exact Or.inr rfl
  · exact Or.inl rfl

/-! ## C8: the MIME sniffer implements the ordered signature table -/

/-- C8.  `detectMimeType` agrees with the spec's ordered
signature-table lookup (first match wins, generic fallback) on every
input; a pattern can never match an input shorter than itself, so no
out-of-bounds read is possible; and the concrete spec examples hold:
a JPEG header yields `image/jpeg`, a PNG header `image/png`, and an
unmatched input the generic label.  The operation is total, so it
never fails. -/
theorem detectMimeType_matches_table :
    (∀ d : Bytes, detectMimeType d = sniffMediaType d) ∧
    (∀ d pat : Bytes, d.length < pat.length → matchesSig d pat = false) ∧
    detectMimeType [0xFF, 0xD8, 0xFF, 0xE0, 0x01, 0x02] = ("image/jpeg") ∧
    detectMimeType [0x89, 0x50, 0x4E, 0x47, 0x0D, 0x0A, 0x1A, 0x0A, 0x01] =
      ("image/png") ∧
    detectMimeType [0x01, 0x02, 0x03, 0x04] = ("application/octet-stream") := by
  refine ⟨?_, ?_, by rfl, by rfl, by rfl⟩
  · intro d
    simp only [detectMimeType, sniffMediaType, mediaTypeSignatures,
      lookupSignature, matchesSig, List.any_cons, List.any_nil,
      Bool.or_eq_true, beq_iff_eq, Bool.or_false, jpegSigE0, jpegSigE1,
      pngSig, oggSig, flacSig, mp4Sig18, mp4Sig20, id3Sig, mpegSig,
      List.take_take, List.length_cons, List.length_nil]
    norm_num
  · intro d pat h
    unfold matchesSig
    simp only [beq_eq_false_iff_ne]
    intro contra
    have hc := congrArg List.length contra
    simp only [List.length_take] at hc
    omega

/-- Witness for C8: the short-input clause evaluated at a one-byte
input against the four-byte JPEG pattern. -/
theorem detectMimeType_matches_table_witness :
    matchesSig [0xFF] jpegSigE0 = false :=
  detectMimeType_matches_table.2.1 [0xFF] jpegSigE0 (by decide)

/-! ## C9: digest verification machinery -/

/-- Distinct 6-bit values map to distinct base64 characters. -/
theorem sextetChar_inj : ∀ i : Nat, i < 64 → ∀ j : Nat, j < 64 →
    sextetChar i = sextetChar j → i = j := by decide

/-- On byte lists of equal length, the base64 chunk encoding is
injective. -/
theorem base64EncodeChunks_inj :
    ∀ (n : Nat) (xs ys : Bytes), xs.length ≤ n → xs.length = ys.length →
      ValidBytes xs → ValidBytes ys →
      base64EncodeChunks xs = base64EncodeChunks ys → xs = ys := by
  intro n
  induction n with
  | zero =>
      intro xs ys hn hlen _ _ _
      have hx : xs = [] := List.eq_nil_of_length_eq_zero (by omega)
      have hy : ys = [] := List.eq_nil_of_length_eq_zero (by omega)
      rw [hx, hy]
  | succ n ih =>
      intro xs ys hn hlen hvx hvy henc
      rcases xs with _ | ⟨a, xs1⟩
      · rcases ys with _ | ⟨a', ys1⟩
        · rfl
        · simp at hlen
      rcases ys with _ | ⟨a', ys1⟩
      · simp at hlen
      have ha : a < 256 := hvx a (by simp)
      have ha' : a' < 256 := hvy a' (by simp)
      rcases xs1 with _ | ⟨b, xs2⟩
      · rcases ys1 with _ | ⟨b', ys2⟩
        · -- [a] vs [a']
          simp only [base64EncodeChunks, List.cons.injEq, and_true] at henc
          obtain ⟨h1, h2⟩ := henc
          have e1 : a / 4 = a' / 4 :=
            sextetChar_inj _ (by omega) _ (by omega) h1
          have e2 : a % 4 * 16 = a' % 4 * 16 :=
            sextetChar_inj _ (by omega) _ (by omega) h2
          have : a = a' := by omega
          rw [this]
        · simp at hlen
      rcases ys1 with _ | ⟨b', ys2⟩
      · simp at hlen
      have hb : b < 256 := hvx b (by simp)
      have hb' : b' < 256 := hvy b' (by simp)
      rcases xs2 with _ | ⟨c, rest⟩
      · rcases ys2 with _ | ⟨c', rest'⟩
        · -- [a, b] vs [a', b']
          simp only [base64EncodeChunks, List.cons.injEq, and_true] at henc
          obtain ⟨h1, h2, h3⟩ := henc
          have e1 : a / 4 = a' / 4 :=
            sextetChar_inj _ (by omega) _ (by omega) h1
          have e2 : a % 4 * 16 + b / 16 = a' % 4 * 16 + b' / 16 :=
            sextetChar_inj _ (by omega) _ (by omega) h2
          have e3 : b % 16 * 4 = b' % 16 * 4 :=
            sextetChar_inj _ (by omega) _ (by omega) h3
          have hab : a = a' ∧ b = b' := by omega
          rw [hab.1, hab.2]
        · simp at hlen
      rcases ys2 with _ | ⟨c', rest'⟩
      · simp at hlen
      -- a :: b :: c :: rest vs a' :: b' :: c' :: rest'
      have hc : c < 256 := hvx c (by simp)
      have hc' : c' < 256 := hvy c' (by simp)
      simp only [base64EncodeChunks, List.cons.injEq] at henc
      obtain ⟨h1, h2, h3, h4, h5⟩ := henc
      have e1 : a / 4 = a' / 4 :=
        sextetChar_inj _ (by omega) _ (by omega) h1
      have e2 : a % 4 * 16 + b / 16 = a' % 4 * 16 + b' / 16 :=
        sextetChar_inj _ (by omega) _ (by omega) h2
      have e3 : b % 16 * 4 + c / 64 = b' % 16 * 4 + c' / 64 :=
        sextetChar_inj _ (by omega) _ (by omega) h3
      have e4 : c % 64 = c' % 64 :=
        sextetChar_inj _ (by omega) _ (by omega) h4
      have habc : a = a' ∧ b = b' ∧ c = c' := by omega
      have hrest : rest = rest' := by
        refine ih rest rest' (by simp at hn; omega) (by simp at hlen; omega)
          ?_ ?_ h5
        · intro x hx
          exact hvx x (by simp [hx])
        · intro x hx
          exact hvy x (by simp [hx])
      rw [habc.1, habc.2.1, habc.2.2, hrest]

/-- Base64 encoding is injective on valid byte lists of equal
length. -/
theorem base64Encode_inj (xs ys : Bytes) (hlen : xs.length = ys.length)
    (hvx : ValidBytes xs) (hvy : ValidBytes ys)
    (h : base64Encode xs = base64Encode ys) : xs = ys := by
  unfold base64Encode at h
  have hchunks : base64EncodeChunks xs = base64EncodeChunks ys :=
    congrArg String.data h
  exact base64EncodeChunks_inj xs.length xs ys le_rfl hlen hvx hvy hchunks

/-- C9.  `verifyFileSha256` and `verifyEncryptedFileSha256` both
return true exactly when the expected string equals the base64
encoding of the SHA-256 digest of the given bytes; and whenever the
data is altered in a way that changes its digest, a previously
accepted expected string is rejected. -/
theorem verifyDigest_iff (C : Sha256Spec) (d : Bytes) (e : String) :
    (verifyFileSha256 C d e = true ↔ base64Encode (C.sha256 d) = e) ∧
    (verifyEncryptedFileSha256 C d e = true ↔
      base64Encode (C.sha256 d) = e) ∧
    (∀ d' : Bytes, C.sha256 d' ≠ C.sha256 d →
      verifyFileSha256 C d e = true → verifyFileSha256 C d' e = false) ∧
    (∀ d' : Bytes, C.sha256 d' ≠ C.sha256 d →
      verifyEncryptedFileSha256 C d e = true →
      verifyEncryptedFileSha256 C d' e = false) := by
  have hiff : ∀ dd : Bytes, verifyFileSha256 C dd e = true ↔
      base64Encode (C.sha256 dd) = e := by
    intro dd
    unfold verifyFileSha256
    simp
  have hiff2 : ∀ dd : Bytes, verifyEncryptedFileSha256 C dd e = true ↔
      base64Encode (C.sha256 dd) = e := by
    intro dd
    unfold verifyEncryptedFileSha256
    simp
  have hkey : ∀ d' : Bytes, C.sha256 d' ≠ C.sha256 d →
      base64Encode (C.sha256 d) = e → base64Encode (C.sha256 d') ≠ e := by
    intro d' hne he he'
    apply hne
    refine base64Encode_inj _ _ ?_ (C.mem_lt d') (C.mem_lt d) ?_
    · rw [C.length_eq, C.length_eq]
    · rw [he, he']
  refine ⟨hiff d, hiff2 d, ?_, ?_⟩
  · intro d' hne htrue
    cases h : verifyFileSha256 C d' e
    · rfl
    · exact absurd ((hiff d').mp h) (hkey d' hne ((hiff d).mp htrue))
  · intro d' hne htrue
    cases h : verifyEncryptedFileSha256 C d' e
    · rfl
    · exact absurd ((hiff2 d').mp h) (hkey d' hne ((hiff2 d).mp htrue))

/-- Witness for C9: a digest accepted for the empty input is rejected
once the input gains a byte, under a digest function that separates
the two inputs. -/
theorem verifyDigest_iff_witness :
    verifyFileSha256 lenTagSha256 [0]
        (base64Encode (List.replicate 31 0 ++ [0])) = false :=
  (verifyDigest_iff lenTagSha256 []
    (base64Encode (List.replicate 31 0 ++ [0]))).2.2.1
    [0] (by decide) (by decide)
